import Mathlib

/-!
Verification of the SEARCH/REPLACE patch-application engine of `y-server`
(`src/utils/e2b_utils.ts`): `normalizeNewlines`, `trimMatch` and `applyDiff`.
Documents and patch texts are modelled as lists of characters; the character
offsets of the model coincide with the JavaScript string indices used by the
source.  The fallible `applyDiff` (which throws on an unmatched search block)
is modelled with `Except String`.
-/

deriving instance DecidableEq for Except

/-- Convert a string literal to the character-list representation used by the model. -/
def str (s : String) : List Char := s.data

/-- The SEARCH-start sentinel line of the patch format. -/
def searchMarker : List Char := str "<<<<<<< SEARCH"

/-- The separator sentinel line of the patch format. -/
def sepLine : List Char := str "======="

/-- The REPLACE-end sentinel line of the patch format. -/
def replMarker : List Char := str ">>>>>>> REPLACE"

/-- The message of the only error `applyDiff` can raise
(`throw new Error("Could not find a match for the SEARCH block in the file.")`). -/
def errMsg : String := "Could not find a match for the SEARCH block in the file."

/-- JavaScript `content.replace(/\\n/g, "\n")`: every two-character sequence
backslash-`n` is rewritten, left to right, to an actual newline
(`normalizeNewlines` in the source). -/
def normalizeNewlines : List Char → List Char
  | [] => []
  | [c] => [c]
  | c1 :: c2 :: rest =>
    if c1 = '\\' ∧ c2 = 'n' then '\n' :: normalizeNewlines rest
    else c1 :: normalizeNewlines (c2 :: rest)

/-- Replace every real newline by the two-character escape sequence
backslash-`n`.  This is the transformation the spec's normalization claim
quantifies over (the inverse direction of `normalizeNewlines`). -/
def escapeNewlines : List Char → List Char
  | [] => []
  | c :: rest =>
    if c = '\n' then '\\' :: 'n' :: escapeNewlines rest
    else c :: escapeNewlines rest

/-- JavaScript `s.split("\n")`: split into lines at every newline character.
The result is always non-empty and a trailing newline yields a trailing empty
line, exactly as in JavaScript. -/
def splitLines : List Char → List (List Char)
  | [] => [[]]
  | c :: rest =>
    let r := splitLines rest
    if c = '\n' then [] :: r else (c :: r.headD []) :: r.tail

/-- Characters stripped by JavaScript `String.prototype.trim`
(the whitespace forms that can occur in a line of text). -/
def isWS (c : Char) : Bool :=
  c = ' ' || c = '\t' || c = '\n' || c = '\r' || c = '\x0b' || c = '\x0c'

/-- JavaScript `s.trim()`: strip leading and trailing whitespace. -/
def jsTrim (s : List Char) : List Char :=
  ((s.dropWhile isWS).reverse.dropWhile isWS).reverse

/-- Clamp a JavaScript index (which may be negative, counting from the end)
into `[0, len]`, as `String.prototype.slice` does. -/
def jsSliceIdx (len : Nat) (i : Int) : Nat :=
  if i < 0 then ((len : Int) + i).toNat else min i.toNat len

/-- JavaScript `s.slice(a, b)` on a string of characters. -/
def jsSlice (s : List Char) (a b : Int) : List Char :=
  (s.take (jsSliceIdx s.length b)).drop (jsSliceIdx s.length a)

/-- The needle occurs in the haystack at exactly position `i`. -/
def occursAt (hay needle : List Char) (i : Nat) : Bool :=
  needle.isPrefixOf (hay.drop i)

/-- Generic left-to-right scan: the first index `≥ i` satisfying `p`,
trying at most `fuel` consecutive indices.  Both linear searches of the
source (`indexOf` and the candidate-line loop of `trimMatch`) are
instances of this scan. -/
def scanFirst (p : Nat → Bool) : Nat → Nat → Option Nat
  | 0, _ => none
  | fuel + 1, i => if p i then some i else scanFirst p fuel (i + 1)

/-- JavaScript `hay.indexOf(needle, start)` for a non-empty needle: the first
occurrence at or after `start` (a negative `start` is treated as `0`), or
`none`. -/
def jsIndexOf (hay needle : List Char) (start : Int) : Option Nat :=
  scanFirst (occursAt hay needle) (hay.length + 1 - start.toNat) start.toNat

/-- The line-number cursor of `trimMatch`: the source's
`while (currentIndex < startIdx && startLineNum < originalLines.length)` loop,
counting how many leading lines end strictly before `startIdx`. -/
def startLineAux : List (List Char) → Int → Int → Nat
  | [], _, _ => 0
  | l :: ls, startIdx, cur =>
    if cur < startIdx then startLineAux ls startIdx (cur + l.length + 1) + 1 else 0

/-- The search lines used by `trimMatch`: `search.split("\n")` with a trailing
empty line popped (`if (searchLines[searchLines.length - 1] === "") searchLines.pop()`). -/
def searchLinesOf (search : List Char) : List (List Char) :=
  let s0 := splitLines search
  if s0.getLast? = some [] then s0.dropLast else s0

/-- The inner check of `trimMatch`'s candidate loop: document lines
`i, i+1, ...` agree with all the search lines after `trim()` on both sides. -/
def linesMatchAt (olines slines : List (List Char)) (i : Nat) : Bool :=
  decide (i + slines.length ≤ olines.length) &&
  (((olines.drop i).take slines.length).zip slines).all
    (fun p => jsTrim p.1 == jsTrim p.2)

/-- Character offset of the start of line `k` (each earlier line contributes
its length plus one newline), as recomputed by `trimMatch`. -/
def charPosD (lines : List (List Char)) (k : Nat) : Nat :=
  ((lines.take k).map (fun l => l.length + 1)).sum

/-- The `trimMatch` function of the source: find a whitespace-relaxed match of
the search block at or after character offset `startIdx` and return its
character range, or `none`. -/
def trimMatch (original search : List Char) (startIdx : Int) : Option (Nat × Nat) :=
  let olines := splitLines original
  let slines := searchLinesOf search
  let sln := startLineAux olines startIdx 0
  if slines.length > olines.length then none
  else
    match scanFirst (linesMatchAt olines slines) (olines.length - slines.length + 1 - sln) sln with
    | none => none
    | some i =>
      some (charPosD olines i,
        charPosD olines i + (((olines.drop i).take slines.length).map (fun l => l.length + 1)).sum)

/-- Resolution of one search block at separator time (the body of the
`line === "======="` branch of `applyDiff`): an empty accumulated search
content matches the whole document; otherwise exact `indexOf` from `lastIdx`
is tried first and `trimMatch` second, and failure of both raises the error. -/
def resolveBlock (original search : List Char) (lastIdx : Int) : Except String (Nat × Nat) :=
  if search = [] then
    .ok (0, if original.length = 0 then 0 else original.length)
  else
    match jsIndexOf original search lastIdx with
    | some i => .ok (i, i + search.length)
    | none =>
      match trimMatch original search lastIdx with
      | some p => .ok p
      | none => .error errMsg

/-- The mutable locals of `applyDiff` between two iterations of its
line loop. -/
structure DState where
  result : List Char
  lastIdx : Int
  searchContent : List Char
  inSearch : Bool
  inReplace : Bool
  matchStartIdx : Int
  matchEndIdx : Int
deriving DecidableEq

/-- A parser state with empty accumulators and no pending match, as holds
initially and after every REPLACE-end sentinel. -/
def cleanState (r : List Char) (idx : Int) : DState :=
  ⟨r, idx, [], false, false, -1, -1⟩

/-- The state of `applyDiff`'s locals before its line loop starts. -/
def initState : DState := cleanState [] 0

/-- One iteration of `applyDiff`'s `for (const line of lines)` loop. -/
def stepLine (original : List Char) (st : DState) (line : List Char) : Except String DState :=
  if line = searchMarker then
    .ok { st with inSearch := true, searchContent := [] }
  else if line = sepLine then
    match resolveBlock original st.searchContent st.lastIdx with
    | .error e => .error e
    | .ok (s, e) =>
      .ok { st with inSearch := false, inReplace := true,
                    matchStartIdx := (s : Int), matchEndIdx := (e : Int),
                    result := st.result ++ jsSlice original st.lastIdx (s : Int) }
  else if line = replMarker then
    .ok { st with lastIdx := st.matchEndIdx, inSearch := false, inReplace := false,
                  searchContent := [], matchStartIdx := -1, matchEndIdx := -1 }
  else if st.inSearch then
    .ok { st with searchContent := st.searchContent ++ line ++ ['\n'] }
  else if st.inReplace then
    .ok (if st.matchStartIdx ≠ -1 then { st with result := st.result ++ line ++ ['\n'] } else st)
  else
    .ok st

/-- Run `applyDiff`'s line loop over a list of patch lines. -/
def applyDiffAux (original : List Char) (st : DState) : List (List Char) → Except String DState
  | [] => .ok st
  | l :: ls =>
    match stepLine original st l with
    | .error e => .error e
    | .ok st' => applyDiffAux original st' ls

/-- The body of `applyDiff` after both inputs have been normalized and the
patch split into lines: run the line loop, then, when `isFinal` and document
content remains past the cursor, append `original.slice(lastIdx)`. -/
def runDiffLines (lines : List (List Char)) (original : List Char) (isFinal : Bool) :
    Except String (List Char) :=
  match applyDiffAux original initState lines with
  | .error e => .error e
  | .ok st =>
    .ok (st.result ++
      (if isFinal = true ∧ st.lastIdx < (original.length : Int) then
        jsSlice original st.lastIdx (original.length : Int)
      else []))

/-- The `applyDiff` function of the source (its `async` wrapper is incidental:
the computation is pure). -/
def applyDiff (diff original : List Char) (isFinal : Bool) : Except String (List Char) :=
  runDiffLines (splitLines (normalizeNewlines diff)) (normalizeNewlines original) isFinal

/-- Accumulated text of a list of lines, each line followed by a newline —
exactly how `applyDiff` accumulates `searchContent` and how it emits
replacement lines. -/
def joinAcc : List (List Char) → List Char
  | [] => []
  | l :: ls => l ++ '\n' :: joinAcc ls

/-- One SEARCH/REPLACE unit of a patch, given by its search lines and its
replacement lines. -/
structure Block where
  search : List (List Char)
  replace : List (List Char)

/-- The patch lines generated by one block: SEARCH sentinel, search lines,
separator, replacement lines, REPLACE-end sentinel. -/
def blockLines (b : Block) : List (List Char) :=
  searchMarker :: (b.search ++ sepLine :: (b.replace ++ [replMarker]))

/-- The patch lines of a list of blocks in order. -/
def patchLines (bs : List Block) : List (List Char) :=
  (bs.map blockLines).flatten

/-- A line that is not one of the three sentinel lines. -/
def goodLine (l : List Char) : Bool :=
  !(l == searchMarker) && !(l == sepLine) && !(l == replMarker)

/-- A block none of whose content lines collides with a sentinel line. -/
def wfBlock (b : Block) : Prop :=
  (∀ l ∈ b.search, goodLine l = true) ∧ (∀ l ∈ b.replace, goodLine l = true)

/-- A patch none of whose content lines collides with a sentinel line. -/
def wfBlocks (bs : List Block) : Prop := ∀ b ∈ bs, wfBlock b

instance (b : Block) : Decidable (wfBlock b) := by unfold wfBlock; infer_instance

instance (bs : List Block) : Decidable (wfBlocks bs) := by unfold wfBlocks; infer_instance

/-- Reference splicing semantics, following the spec's words for the frame
claim: for each block in order, emit the untouched document slice from the
cursor to the match start followed by the block's replacement lines (each with
a newline), advancing the cursor to the match end; also return the final
cursor. -/
def applyBlocks (original : List Char) : Int → List Block → Except String (List Char × Int)
  | idx, [] => .ok ([], idx)
  | idx, b :: rest =>
    match resolveBlock original (joinAcc b.search) idx with
    | .error e => .error e
    | .ok (s, e) =>
      match applyBlocks original (e : Int) rest with
      | .error e2 => .error e2
      | .ok (tail, fin) =>
        .ok (jsSlice original idx (s : Int) ++ joinAcc b.replace ++ tail, fin)

/-- The search text of a block as the spec's words for the exact-match claim
describe it: the search lines joined with newline separators, the trailing
empty line stripped.  Note this text does not end with a newline, whereas the
accumulated search content of `applyDiff` always does. -/
def specJoinedText (ls : List (List Char)) : List Char :=
  List.intercalate ['\n'] ls

/-! ## Helper lemmas about the embedded functions -/

theorem normalizeNewlines_two (c1 c2 : Char) (rest : List Char) :
    normalizeNewlines (c1 :: c2 :: rest) =
      if c1 = '\\' ∧ c2 = 'n' then '\n' :: normalizeNewlines rest
      else c1 :: normalizeNewlines (c2 :: rest) := rfl

theorem escapeNewlines_cons (c : Char) (rest : List Char) :
    escapeNewlines (c :: rest) =
      if c = '\n' then '\\' :: 'n' :: escapeNewlines rest
      else c :: escapeNewlines rest := rfl

theorem normalize_ne_nil {s : List Char} (h : s ≠ []) : normalizeNewlines s ≠ [] := by
  match s with
  | [] => exact absurd rfl h
  | [c] => simp [normalizeNewlines]
  | c1 :: c2 :: rest => rw [normalizeNewlines_two]; split <;> simp

theorem scanFirst_succ (p : Nat → Bool) (f i : Nat) :
    scanFirst p (f + 1) i = if p i then some i else scanFirst p f (i + 1) := rfl

theorem scanFirst_some {p : Nat → Bool} :
    ∀ {fuel i j : Nat}, scanFirst p fuel i = some j →
      i ≤ j ∧ j < i + fuel ∧ p j = true ∧ ∀ k, i ≤ k → k < j → p k = false := by
  intro fuel
  induction fuel with
  | zero => intro i j h; exact absurd h (by simp [scanFirst])
  | succ f ih =>
    intro i j h
    rw [scanFirst_succ] at h
    by_cases hp : p i
    · rw [if_pos hp] at h
      obtain rfl : i = j := by injection h
      exact ⟨le_refl _, by omega, hp, fun k hk1 hk2 => absurd hk1 (by omega)⟩
    · rw [if_neg hp] at h
      obtain ⟨h1, h2, h3, h4⟩ := ih h
      refine ⟨by omega, by omega, h3, ?_⟩
      intro k hk1 hk2
      rcases Nat.eq_or_lt_of_le hk1 with rfl | hlt
      · exact Bool.eq_false_iff.mpr hp
      · exact h4 k (by omega) hk2

theorem scanFirst_complete {p : Nat → Bool} :
    ∀ {fuel i j : Nat}, i ≤ j → j < i + fuel → p j = true →
      ∃ r, scanFirst p fuel i = some r := by
  intro fuel
  induction fuel with
  | zero => intro i j h1 h2 _; exact absurd h2 (by omega)
  | succ f ih =>
    intro i j h1 h2 h3
    rw [scanFirst_succ]
    by_cases hp : p i
    · exact ⟨i, if_pos hp⟩
    · rw [if_neg hp]
      have hne : i ≠ j := fun e => hp (e ▸ h3)
      exact ih (by omega) (by omega) h3

theorem charPosD_zero (lines : List (List Char)) : charPosD lines 0 = 0 := by
  simp [charPosD]

theorem charPosD_succ_cons (l : List Char) (ls : List (List Char)) (n : Nat) :
    charPosD (l :: ls) (n + 1) = l.length + 1 + charPosD ls n := by
  simp [charPosD]

theorem charPosD_add (lines : List (List Char)) (a b : Nat) :
    charPosD lines (a + b) =
      charPosD lines a + (((lines.drop a).take b).map (fun l => l.length + 1)).sum := by
  simp [charPosD, List.take_add]

theorem charPosD_mono (lines : List (List Char)) {a b : Nat} (h : a ≤ b) :
    charPosD lines a ≤ charPosD lines b := by
  have hb : b = a + (b - a) := by omega
  rw [hb, charPosD_add]
  omega

theorem startLineAux_cons (l : List Char) (ls : List (List Char)) (startIdx cur : Int) :
    startLineAux (l :: ls) startIdx cur =
      if cur < startIdx then startLineAux ls startIdx (cur + l.length + 1) + 1 else 0 := rfl

theorem startLineAux_bound : ∀ (lines : List (List Char)) (startIdx cur : Int),
    startLineAux lines startIdx cur ≤ lines.length ∧
    (startLineAux lines startIdx cur = lines.length ∨
      startIdx ≤ cur + (charPosD lines (startLineAux lines startIdx cur) : Int)) := by
  intro lines
  induction lines with
  | nil => intro s c; simp [startLineAux, charPosD]
  | cons l ls ih =>
    intro s c
    rw [startLineAux_cons]
    by_cases hc : c < s
    · rw [if_pos hc]
      obtain ⟨h1, h2⟩ := ih s (c + l.length + 1)
      constructor
      · simp only [List.length_cons]; omega
      · rcases h2 with h2 | h2
        · left; simp [h2]
        · right; rw [charPosD_succ_cons]; push_cast at h2 ⊢; omega
    · rw [if_neg hc]
      refine ⟨by simp, Or.inr ?_⟩
      rw [charPosD_zero]; push_cast; omega

theorem splitLines_ne_nil (s : List Char) : splitLines s ≠ [] := by
  cases s with
  | nil => simp [splitLines]
  | cons c rest => simp [splitLines]; split <;> simp

theorem eq_nil_of_splitLines {s : List Char} (h : splitLines s = [[]]) : s = [] := by
  cases s with
  | nil => rfl
  | cons c rest =>
    exfalso
    by_cases hc : c = '\n'
    · simp [splitLines, hc] at h
      exact splitLines_ne_nil rest h
    · simp [splitLines, hc] at h

theorem searchLinesOf_length_pos {search : List Char} (h : search ≠ []) :
    0 < (searchLinesOf search).length := by
  unfold searchLinesOf
  cases hl : splitLines search with
  | nil => exact absurd hl (splitLines_ne_nil search)
  | cons a as =>
    cases as with
    | nil =>
      by_cases ha : a = []
      · exact absurd (eq_nil_of_splitLines (ha ▸ hl)) h
      · simp [ha]
    | cons b bs => dsimp only; split <;> simp

theorem jsSlice_last (s : List Char) :
    jsSlice s (-1) (s.length : Int) = s.drop (s.length - 1) := by
  simp only [jsSlice, jsSliceIdx]
  rw [if_pos (by decide : (-1 : Int) < 0), if_neg (by omega : ¬ ((s.length : Int) < 0))]
  have e1 : (((s.length : Int)) + -1).toNat = s.length - 1 := by omega
  have e2 : min ((s.length : Int)).toNat s.length = s.length := by omega
  rw [e1, e2, List.take_length]

theorem applyDiffAux_nil (original : List Char) (st : DState) :
    applyDiffAux original st [] = .ok st := rfl

theorem applyDiffAux_cons (original : List Char) (st : DState) (l : List Char)
    (ls : List (List Char)) :
    applyDiffAux original st (l :: ls) =
      match stepLine original st l with
      | .error e => .error e
      | .ok st' => applyDiffAux original st' ls := rfl

theorem step_searchM (original : List Char) (st : DState) :
    stepLine original st searchMarker = .ok { st with inSearch := true, searchContent := [] } := by
  unfold stepLine; rw [if_pos rfl]

theorem step_sep (original : List Char) (st : DState) :
    stepLine original st sepLine =
      match resolveBlock original st.searchContent st.lastIdx with
      | .error e => .error e
      | .ok (s, e) =>
        .ok { st with inSearch := false, inReplace := true,
                      matchStartIdx := (s : Int), matchEndIdx := (e : Int),
                      result := st.result ++ jsSlice original st.lastIdx (s : Int) } := by
  unfold stepLine; rw [if_neg (by decide), if_pos rfl]

theorem step_repl (original : List Char) (st : DState) :
    stepLine original st replMarker =
      .ok { st with lastIdx := st.matchEndIdx, inSearch := false, inReplace := false,
                    searchContent := [], matchStartIdx := -1, matchEndIdx := -1 } := by
  unfold stepLine; rw [if_neg (by decide), if_neg (by decide), if_pos rfl]

theorem normalize_escape : ∀ (s : List Char),
    normalizeNewlines (escapeNewlines s) = normalizeNewlines s
  | [] => rfl
  | [c] => by
    rw [escapeNewlines_cons]
    by_cases h : c = '\n'
    · rw [if_pos h, h]; rfl
    · rw [if_neg h]; rfl
  | c1 :: c2 :: rest => by
    have ih2 := normalize_escape rest
    have ih1 := normalize_escape (c2 :: rest)
    rw [escapeNewlines_cons]
    by_cases h1 : c1 = '\n'
    · rw [if_pos h1, h1]
      rw [normalizeNewlines_two, if_pos ⟨rfl, rfl⟩]
      rw [show normalizeNewlines ('\n' :: c2 :: rest)
            = '\n' :: normalizeNewlines (c2 :: rest) from by
        rw [normalizeNewlines_two, if_neg (by simp)]]
      rw [ih1]
    · rw [if_neg h1]
      by_cases h2 : c2 = '\n'
      · rw [escapeNewlines_cons, if_pos h2]
        by_cases h1b : c1 = '\\'
        · rw [h1b, h2]
          rw [normalizeNewlines_two, if_neg (by simp)]
          rw [normalizeNewlines_two, if_pos ⟨rfl, rfl⟩, ih2]
          rw [normalizeNewlines_two, if_neg (by simp)]
          congr 1
          cases rest with
          | nil => rfl
          | cons d ds => rw [normalizeNewlines_two, if_neg (by simp)]
        · rw [h2]
          rw [normalizeNewlines_two, if_neg (by simp [h1b])]
          rw [normalizeNewlines_two, if_pos ⟨rfl, rfl⟩, ih2]
          rw [normalizeNewlines_two, if_neg (by simp [h1b])]
          congr 1
          cases rest with
          | nil => rfl
          | cons d ds => rw [normalizeNewlines_two, if_neg (by simp)]
      · rw [escapeNewlines_cons, if_neg h2]
        by_cases hb : c1 = '\\' ∧ c2 = 'n'
        · rw [normalizeNewlines_two, if_pos hb, normalizeNewlines_two, if_pos hb, ih2]
        · rw [normalizeNewlines_two, if_neg hb, normalizeNewlines_two, if_neg hb]
          congr 1
          rw [← ih1, escapeNewlines_cons, if_neg h2]

/-! ## Claim theorems -/

/-- C6: replacing real line breaks by the two-character backslash-`n` escape in
the patch text, the document text, or both, leaves the result of `applyDiff`
unchanged, because both inputs pass through `normalizeNewlines` before
parsing. -/
theorem applyDiff_escape_invariant (diff original : List Char) (isFinal : Bool) :
    applyDiff (escapeNewlines diff) original isFinal = applyDiff diff original isFinal ∧
    applyDiff diff (escapeNewlines original) isFinal = applyDiff diff original isFinal ∧
    applyDiff (escapeNewlines diff) (escapeNewlines original) isFinal
      = applyDiff diff original isFinal := by
  unfold applyDiff
  rw [normalize_escape diff, normalize_escape original]
  exact ⟨rfl, rfl, rfl⟩

/-- C9: the literal rename scenario: one block whose search lines are the three
lines of the document and whose replacement renames the function, applied with
`isFinal = true`, yields exactly the renamed document. -/
theorem applyDiff_rename_scenario :
    applyDiff
      (str "<<<<<<< SEARCH\nfunction oldName() \x7b\n  return \x27hello\x27;\n\x7d\n=======\nfunction newName() \x7b\n  return \x27hello world\x27;\n\x7d\n>>>>>>> REPLACE")
      (str "function oldName() \x7b\n  return \x27hello\x27;\n\x7d\n") true
    = .ok (str "function newName() \x7b\n  return \x27hello world\x27;\n\x7d\n") := by decide

/-- C5: an empty search block resolves unconditionally to the range
`[0, documentLength)` (in particular `[0, 0)` on the empty document), and a
block with an empty search section against document `"hello world"` replaces
the entire content. -/
theorem resolveBlock_empty_search_full_range :
    (∀ (original : List Char) (idx : Int),
        resolveBlock original [] idx = .ok (0, original.length)) ∧
    (∀ idx : Int, resolveBlock [] [] idx = .ok (0, 0)) ∧
    applyDiff (str "<<<<<<< SEARCH\n=======\nnew content\n>>>>>>> REPLACE")
        (str "hello world") true
      = .ok (str "new content\n") := by
  refine ⟨fun original idx => ?_, fun idx => by simp [resolveBlock], by decide⟩
  unfold resolveBlock
  rw [if_pos rfl]
  by_cases h0 : original.length = 0
  · rw [if_pos h0, h0]
  · rw [if_neg h0]

/-- C8 (amended): the separator line triggers the transition to the
replace-emitting state and the immediate resolution of the accumulated search
content in EVERY parser state, not only while accumulating a search block: the
source checks `line === "======="` before consulting `inSearch`, so whenever
the separator step succeeds, the new state has a resolved match
(`matchStartIdx ≥ 0`, given by `resolveBlock` on whatever `searchContent`
holds). -/
theorem sep_resolves_any_state (original : List Char) (st st' : DState)
    (h : stepLine original st sepLine = .ok st') :
    st'.inSearch = false ∧ st'.inReplace = true ∧ 0 ≤ st'.matchStartIdx ∧
    resolveBlock original st.searchContent st.lastIdx
      = .ok (st'.matchStartIdx.toNat, st'.matchEndIdx.toNat) := by
  rw [step_sep] at h
  cases hres : resolveBlock original st.searchContent st.lastIdx with
  | error e => rw [hres] at h; exact absurd h (by simp)
  | ok p =>
    obtain ⟨s, e⟩ := p
    rw [hres] at h
    rw [Except.ok.injEq] at h
    subst h
    exact ⟨rfl, rfl, Int.natCast_nonneg s, by simp⟩

/-- C8 witness: applying the amended separator theorem in the initial (idle)
state against document `"abc"`. -/
theorem sep_resolves_any_state_witness :
    (stepLine (str "abc") initState sepLine = .ok ⟨[], 0, [], false, true, 0, 3⟩) ∧
    ((⟨[], 0, [], false, true, 0, 3⟩ : DState).inSearch = false ∧
     (⟨[], 0, [], false, true, 0, 3⟩ : DState).inReplace = true ∧
     (0 : Int) ≤ (⟨[], 0, [], false, true, 0, 3⟩ : DState).matchStartIdx ∧
     resolveBlock (str "abc") initState.searchContent initState.lastIdx
       = .ok ((⟨[], 0, [], false, true, 0, 3⟩ : DState).matchStartIdx.toNat,
              (⟨[], 0, [], false, true, 0, 3⟩ : DState).matchEndIdx.toNat)) :=
  ⟨by decide, sep_resolves_any_state (str "abc") initState _ (by decide)⟩

/-- C8 counterexample: a separator encountered in the idle state (no preceding
SEARCH sentinel, `inSearch = false`) DOES resolve a match: the empty
accumulated search content resolves to the whole document, and the patch
consisting of a bare separator block replaces the entire document `"abc"` with
`"X\n"`.  This refutes the claim that a separator outside `IN_SEARCH` never
resolves a match. -/
theorem sep_resolves_in_idle_cex :
    initState.inSearch = false ∧ initState.inReplace = false ∧
    stepLine (str "abc") initState sepLine = .ok ⟨[], 0, [], false, true, 0, 3⟩ ∧
    applyDiff (str "=======\nX\n>>>>>>> REPLACE") (str "abc") true = .ok (str "X\n") :=
  ⟨rfl, rfl, by decide, by decide⟩

/-- C10: a patch consisting solely of the line `>>>>>>> REPLACE` raises no
error on any non-empty document: the REPLACE-end branch copies the unresolved
`matchEndIdx = -1` into `lastIdx`, the final-append guard `-1 < length`
passes, and the returned text is `original.slice(-1)` — exactly the last
character of the (normalized) document, silently truncating it. -/
theorem applyDiff_lone_replMarker (original : List Char) (h : original ≠ []) :
    applyDiff replMarker original true =
      .ok ((normalizeNewlines original).drop ((normalizeNewlines original).length - 1)) ∧
    ((normalizeNewlines original).drop ((normalizeNewlines original).length - 1)).length
      = 1 := by
  have hn : normalizeNewlines original ≠ [] := normalize_ne_nil h
  have hlen : 0 < (normalizeNewlines original).length := List.length_pos.mpr hn
  constructor
  · have hall : applyDiff replMarker original true
        = .ok ([] ++ (if true = true ∧ (-1 : Int) < ((normalizeNewlines original).length : Int)
            then jsSlice (normalizeNewlines original) (-1) ((normalizeNewlines original).length : Int)
            else [])) := rfl
    rw [hall, if_pos ⟨rfl, by omega⟩, List.nil_append, jsSlice_last]
  · rw [List.length_drop]; omega

/-- C10 witness: the lone REPLACE-end patch applied to `"abc"` returns `"c"`. -/
theorem applyDiff_lone_replMarker_witness :
    (str "abc" ≠ []) ∧
    (applyDiff replMarker (str "abc") true =
      .ok ((normalizeNewlines (str "abc")).drop ((normalizeNewlines (str "abc")).length - 1)) ∧
    ((normalizeNewlines (str "abc")).drop ((normalizeNewlines (str "abc")).length - 1)).length
      = 1) :=
  ⟨by decide, applyDiff_lone_replMarker (str "abc") (by decide)⟩

/-- C1 (amended): a block with a NON-EMPTY search section never resolves
before the cursor: whatever `resolveBlock` returns for it — through the exact
`indexOf` tier or through `trimMatch` — starts at or after `lastIdx`, so an
occurrence of its search text lying before the previous block's consumed
range is never matched.  (The restriction to non-empty search sections is
forced by the counterexample: an empty search block resolves to `[0, length)`
regardless of the cursor.) -/
theorem resolveBlock_no_backtrack (original search : List Char) (lastIdx : Int) (s e : Nat)
    (hne : search ≠ []) (hres : resolveBlock original search lastIdx = .ok (s, e)) :
    lastIdx ≤ (s : Int) := by
  unfold resolveBlock jsIndexOf at hres
  rw [if_neg hne] at hres
  cases hidx : scanFirst (occursAt original search)
      (original.length + 1 - lastIdx.toNat) lastIdx.toNat with
  | some i =>
    rw [hidx] at hres
    rw [Except.ok.injEq, Prod.mk.injEq] at hres
    obtain ⟨rfl, -⟩ := hres
    have h1 := (scanFirst_some hidx).1
    have h2 : (lastIdx.toNat : Int) ≤ (i : Int) := by exact_mod_cast h1
    have h3 := Int.self_le_toNat lastIdx
    omega
  | none =>
    rw [hidx] at hres
    cases htm : trimMatch original search lastIdx with
    | none => rw [htm] at hres; exact absurd hres (by simp)
    | some p =>
      rw [htm] at hres
      rw [Except.ok.injEq] at hres
      unfold trimMatch at htm
      by_cases hg : (searchLinesOf search).length > (splitLines original).length
      · rw [if_pos hg] at htm; exact absurd htm (by simp)
      · rw [if_neg hg] at htm
        cases hscan : scanFirst (linesMatchAt (splitLines original) (searchLinesOf search))
            ((splitLines original).length - (searchLinesOf search).length + 1
              - startLineAux (splitLines original) lastIdx 0)
            (startLineAux (splitLines original) lastIdx 0) with
        | none => rw [hscan] at htm; exact absurd htm (by simp)
        | some i =>
          rw [hscan, Option.some.injEq] at htm
          obtain ⟨hsome1, hsome2, -, -⟩ := scanFirst_some hscan
          have hs : s = charPosD (splitLines original) i := by
            have h2 := htm.trans hres
            rw [Prod.mk.injEq] at h2
            exact h2.1.symm
          obtain ⟨hb1, hb2⟩ := startLineAux_bound (splitLines original) lastIdx 0
          have hslen : 0 < (searchLinesOf search).length := searchLinesOf_length_pos hne
          rcases hb2 with hb2 | hb2
          · exfalso; omega
          · have hmono := charPosD_mono (splitLines original) hsome1
            rw [hs]
            have hcast : (charPosD (splitLines original)
                  (startLineAux (splitLines original) lastIdx 0) : Int)
                ≤ (charPosD (splitLines original) i : Int) := by exact_mod_cast hmono
            omega

/-- C1 witness: applying the no-backtracking theorem to the one-line search
block `"y\n"` against document `"x\ny\n"` from cursor `0`. -/
theorem resolveBlock_no_backtrack_witness :
    ((str "y\n" ≠ []) ∧ resolveBlock (str "x\ny\n") (str "y\n") 0 = .ok (2, 4)) ∧
    (0 : Int) ≤ ((2 : Nat) : Int) :=
  ⟨⟨by decide, by decide⟩, resolveBlock_no_backtrack (str "x\ny\n") (str "y\n") 0 2 4
    (by decide) (by decide)⟩

/-- C1 counterexample: in the two-block patch whose second block has an EMPTY
search section, the second block's match range begins at 0, strictly before
the end (2) of the first block's consumed range: after processing the first
block and the second block's SEARCH and separator lines against document
`"a\nb\n"`, the cursor is 2 but `matchStartIdx` is 0.  The full patch is
nevertheless accepted, so the claim that EVERY block of a multi-block patch
resolves at or after the cursor is false. -/
theorem applyDiff_backtrack_cex :
    (applyDiffAux (str "a\nb\n") initState
        [searchMarker, str "a", sepLine, str "X", replMarker, searchMarker, sepLine]).map
      (fun st => (st.lastIdx, st.matchStartIdx)) = .ok ((2 : Int), (0 : Int)) ∧
    ¬ ((2 : Int) ≤ (0 : Int)) ∧
    applyDiff
        (str "<<<<<<< SEARCH\na\n=======\nX\n>>>>>>> REPLACE\n<<<<<<< SEARCH\n=======\nY\n>>>>>>> REPLACE")
        (str "a\nb\n") true = .ok (str "X\nY\n") :=
  ⟨by decide, by decide, by decide⟩

theorem occursAt_lt_length {hay needle : List Char} {j : Nat}
    (hne : needle ≠ []) (h : occursAt hay needle j = true) : j < hay.length := by
  unfold occursAt at h
  rw [ List.isPrefixOf_iff_prefix] at h
  have h1 : needle.length ≤ (hay.drop j).length := h.length_le
  rw [List.length_drop] at h1
  have h2 : 0 < needle.length := List.length_pos.mpr hne
  omega

/-- C3 counterexample: the claim describes the exact-match needle as the
search lines joined with newlines with the trailing empty line stripped; for
the one-line block `["foo"]` that text is `"foo"`, which occurs in the
document `"xfoo"` at offset 1, at or after the cursor 0.  The claim then
demands resolution by exact substring match with range `[1, 4)`, but
`applyDiff` raises the no-match error: the exact tier searches for the
ACCUMULATED search content `"foo\n"` — which ends with a newline and does not
occur — and the trimmed fallback fails as well. -/
theorem exact_joined_text_claim_cex :
    specJoinedText [str "foo"] = str "foo" ∧
    occursAt (str "xfoo") (specJoinedText [str "foo"]) 1 = true ∧
    jsIndexOf (str "xfoo") (str "foo\n") 0 = none ∧
    applyDiff (str "<<<<<<< SEARCH\nfoo\n=======\nbar\n>>>>>>> REPLACE") (str "xfoo") true
      = .error errMsg :=
  ⟨by decide, by decide, by decide, by decide⟩

/-- C3 (amended): if the document contains, at or after the cursor, a literal
occurrence of the block's ACCUMULATED search text (each search line followed
by a newline, so the needle always ends with a newline), then the block is
resolved by the exact `indexOf` tier at the first such occurrence, with range
`[index, index + length)`, and the whitespace-trimmed fallback is not
consulted. -/
theorem resolveBlock_exact_first (original search : List Char) (lastIdx : Int) (j : Nat)
    (hne : search ≠ []) (hj : lastIdx ≤ (j : Int) ∧ occursAt original search j = true) :
    ∃ i₀, jsIndexOf original search lastIdx = some i₀ ∧
      lastIdx ≤ (i₀ : Int) ∧ occursAt original search i₀ = true ∧
      (∀ k : Nat, lastIdx ≤ (k : Int) → occursAt original search k = true → i₀ ≤ k) ∧
      resolveBlock original search lastIdx = .ok (i₀, i₀ + search.length) := by
  obtain ⟨hj1, hj2⟩ := hj
  have hjlen : j < original.length := occursAt_lt_length hne hj2
  have hstart : lastIdx.toNat ≤ j := Int.toNat_le.mpr hj1
  have hfuel : j < lastIdx.toNat + (original.length + 1 - lastIdx.toNat) := by omega
  obtain ⟨r, hr⟩ := scanFirst_complete hstart hfuel hj2
  obtain ⟨hr1, hr2, hr3, hr4⟩ := scanFirst_some hr
  have hridx : jsIndexOf original search lastIdx = some r := hr
  refine ⟨r, hridx, ?_, hr3, ?_, ?_⟩
  · have hc : (lastIdx.toNat : Int) ≤ (r : Int) := by exact_mod_cast hr1
    have hself := Int.self_le_toNat lastIdx
    omega
  · intro k hk1 hk2
    by_contra hlt
    push_neg at hlt
    have hk0 : lastIdx.toNat ≤ k := Int.toNat_le.mpr hk1
    have hfalse := hr4 k hk0 hlt
    rw [hk2] at hfalse
    exact absurd hfalse (by simp)
  · unfold resolveBlock
    rw [if_neg hne, hridx]

/-- C3 witness: applying the amended exact-precedence theorem to search
content `"foo\n"` against document `"xfoo\nz"` from cursor 0, where the
needle occurs at offset 1. -/
theorem resolveBlock_exact_first_witness :
    ((str "foo\n" ≠ []) ∧
      ((0 : Int) ≤ ((1 : Nat) : Int) ∧ occursAt (str "xfoo\nz") (str "foo\n") 1 = true)) ∧
    (∃ i₀, jsIndexOf (str "xfoo\nz") (str "foo\n") 0 = some i₀ ∧
      (0 : Int) ≤ (i₀ : Int) ∧ occursAt (str "xfoo\nz") (str "foo\n") i₀ = true ∧
      (∀ k : Nat, (0 : Int) ≤ (k : Int) → occursAt (str "xfoo\nz") (str "foo\n") k = true → i₀ ≤ k) ∧
      resolveBlock (str "xfoo\nz") (str "foo\n") 0 = .ok (i₀, i₀ + (str "foo\n").length)) :=
  ⟨⟨by decide, by decide, by decide⟩,
    resolveBlock_exact_first (str "xfoo\nz") (str "foo\n") 0 1 (by decide)
      ⟨by decide, by decide⟩⟩

/-- C4: when the exact tier fails, and some run of consecutive document lines
— starting at or after the cursor's line and exactly as many lines as the
search block has — agrees with the search lines one-for-one after trimming
whitespace on both sides, the block resolves through `trimMatch` to the FIRST
such candidate, and its character range covers those whole physical document
lines (`[charPosD i₀, charPosD (i₀ + lineCount))`). -/
theorem resolveBlock_trimmed_fallback (original search : List Char) (lastIdx : Int) (i : Nat)
    (hne : search ≠ [])
    (hex : jsIndexOf original search lastIdx = none)
    (hstart : startLineAux (splitLines original) lastIdx 0 ≤ i)
    (hlen : i + (searchLinesOf search).length ≤ (splitLines original).length)
    (hmatch : linesMatchAt (splitLines original) (searchLinesOf search) i = true) :
    ∃ i₀, i₀ ≤ i ∧ startLineAux (splitLines original) lastIdx 0 ≤ i₀ ∧
      linesMatchAt (splitLines original) (searchLinesOf search) i₀ = true ∧
      (∀ k, startLineAux (splitLines original) lastIdx 0 ≤ k → k < i₀ →
        linesMatchAt (splitLines original) (searchLinesOf search) k = false) ∧
      resolveBlock original search lastIdx =
        .ok (charPosD (splitLines original) i₀,
             charPosD (splitLines original) (i₀ + (searchLinesOf search).length)) := by
  have hg : ¬ ((searchLinesOf search).length > (splitLines original).length) := by omega
  have hfuel : i < startLineAux (splitLines original) lastIdx 0 +
      ((splitLines original).length - (searchLinesOf search).length + 1
        - startLineAux (splitLines original) lastIdx 0) := by omega
  obtain ⟨r, hr⟩ := scanFirst_complete hstart hfuel hmatch
  obtain ⟨hr1, hr2, hr3, hr4⟩ := scanFirst_some hr
  have hri : r ≤ i := by
    by_contra hgt
    push_neg at hgt
    have hfalse := hr4 i hstart hgt
    rw [hmatch] at hfalse
    exact absurd hfalse (by simp)
  have htm : trimMatch original search lastIdx
      = some (charPosD (splitLines original) r,
          charPosD (splitLines original) r +
            ((((splitLines original).drop r).take (searchLinesOf search).length).map
              (fun l => l.length + 1)).sum) := by
    unfold trimMatch
    rw [if_neg hg, hr]
  refine ⟨r, hri, hr1, hr3, hr4, ?_⟩
  unfold resolveBlock
  rw [if_neg hne, hex, htm, charPosD_add]

/-- C4 witness: the literal trimmed-match scenario: the document line
`"  return 'hello';  "` (trailing spaces) matched by the search line
`"  return 'hello';"` through the whitespace-relaxed path once exact match
fails. -/
theorem resolveBlock_trimmed_fallback_witness :
    ((str "  return \x27hello\x27;\n" ≠ []) ∧
      jsIndexOf (str "  return \x27hello\x27;  \n") (str "  return \x27hello\x27;\n") 0 = none ∧
      startLineAux (splitLines (str "  return \x27hello\x27;  \n")) 0 0 ≤ 0 ∧
      0 + (searchLinesOf (str "  return \x27hello\x27;\n")).length
        ≤ (splitLines (str "  return \x27hello\x27;  \n")).length ∧
      linesMatchAt (splitLines (str "  return \x27hello\x27;  \n"))
        (searchLinesOf (str "  return \x27hello\x27;\n")) 0 = true) ∧
    (∃ i₀, i₀ ≤ 0 ∧ startLineAux (splitLines (str "  return \x27hello\x27;  \n")) 0 0 ≤ i₀ ∧
      linesMatchAt (splitLines (str "  return \x27hello\x27;  \n"))
        (searchLinesOf (str "  return \x27hello\x27;\n")) i₀ = true ∧
      (∀ k, startLineAux (splitLines (str "  return \x27hello\x27;  \n")) 0 0 ≤ k → k < i₀ →
        linesMatchAt (splitLines (str "  return \x27hello\x27;  \n"))
          (searchLinesOf (str "  return \x27hello\x27;\n")) k = false) ∧
      resolveBlock (str "  return \x27hello\x27;  \n") (str "  return \x27hello\x27;\n") 0 =
        .ok (charPosD (splitLines (str "  return \x27hello\x27;  \n")) i₀,
             charPosD (splitLines (str "  return \x27hello\x27;  \n"))
               (i₀ + (searchLinesOf (str "  return \x27hello\x27;\n")).length))) :=
  ⟨⟨by decide, by decide, by decide, by decide, by decide⟩,
    resolveBlock_trimmed_fallback (str "  return \x27hello\x27;  \n")
      (str "  return \x27hello\x27;\n") 0 0 (by decide) (by decide) (by decide)
      (by decide) (by decide)⟩

theorem resolveBlock_error_iff (original search : List Char) (idx : Int) (e : String) :
    resolveBlock original search idx = .error e ↔
      (e = errMsg ∧ search ≠ [] ∧ jsIndexOf original search idx = none ∧
       trimMatch original search idx = none) := by
  unfold resolveBlock
  by_cases hs : search = []
  · rw [if_pos hs]
    simp [hs]
  · rw [if_neg hs]
    cases hidx : jsIndexOf original search idx with
    | some i => simp
    | none =>
      cases htm : trimMatch original search idx with
      | some p => simp
      | none => simp [hs, eq_comm]

theorem stepLine_error_iff (original : List Char) (st : DState) (l : List Char) (e : String) :
    stepLine original st l = .error e ↔
      (l = sepLine ∧ e = errMsg ∧ st.searchContent ≠ [] ∧
       jsIndexOf original st.searchContent st.lastIdx = none ∧
       trimMatch original st.searchContent st.lastIdx = none) := by
  by_cases h2 : l = sepLine
  · subst h2
    rw [step_sep]
    cases hres : resolveBlock original st.searchContent st.lastIdx with
    | error e' =>
      obtain ⟨he', hne, hidx, htm⟩ := (resolveBlock_error_iff _ _ _ _).mp hres
      constructor
      · intro h
        have he : e' = e := by simpa using h
        exact ⟨rfl, by rw [← he, he'], hne, hidx, htm⟩
      · rintro ⟨-, he, -, -, -⟩
        simp [he, he']
    | ok p =>
      obtain ⟨s, e'⟩ := p
      constructor
      · intro h; simp at h
      · rintro ⟨-, -, hne, hidx, htm⟩
        have hcontra : resolveBlock original st.searchContent st.lastIdx = .error errMsg :=
          (resolveBlock_error_iff _ _ _ _).mpr ⟨rfl, hne, hidx, htm⟩
        rw [hres] at hcontra
        exact absurd hcontra (by simp)
  · constructor
    · intro h
      unfold stepLine at h
      by_cases h1 : l = searchMarker
      · rw [if_pos h1] at h; exact absurd h (by simp)
      · rw [if_neg h1, if_neg h2] at h
        by_cases h3 : l = replMarker
        · rw [if_pos h3] at h; exact absurd h (by simp)
        · rw [if_neg h3] at h
          by_cases h4 : st.inSearch
          · rw [if_pos h4] at h; exact absurd h (by simp)
          · rw [if_neg h4] at h
            by_cases h5 : st.inReplace
            · rw [if_pos h5] at h; exact absurd h (by simp)
            · rw [if_neg h5] at h; exact absurd h (by simp)
    · rintro ⟨hl, -⟩; exact absurd hl h2

theorem applyDiffAux_append (original : List Char) : ∀ (xs ys : List (List Char)) (st : DState),
    applyDiffAux original st (xs ++ ys) =
      match applyDiffAux original st xs with
      | .error e => .error e
      | .ok st' => applyDiffAux original st' ys := by
  intro xs
  induction xs with
  | nil => intro ys st; rfl
  | cons x xs ih =>
    intro ys st
    rw [List.cons_append, applyDiffAux_cons, applyDiffAux_cons]
    cases stepLine original st x with
    | error e => rfl
    | ok st1 => exact ih ys st1

theorem applyDiffAux_error_iff (original : List Char) :
    ∀ (lines : List (List Char)) (st0 : DState) (e : String),
    applyDiffAux original st0 lines = .error e ↔
      ∃ pre post st, lines = pre ++ sepLine :: post ∧
        applyDiffAux original st0 pre = .ok st ∧
        stepLine original st sepLine = .error e := by
  intro lines
  induction lines with
  | nil =>
    intro st0 e
    constructor
    · intro h; exact absurd h (by simp [applyDiffAux_nil])
    · rintro ⟨pre, post, st, hl, -, -⟩
      cases pre <;> simp at hl
  | cons l ls ih =>
    intro st0 e
    rw [applyDiffAux_cons]
    cases hst : stepLine original st0 l with
    | error e' =>
      constructor
      · intro h
        have he : e' = e := by simpa using h
        obtain ⟨hl, -⟩ := (stepLine_error_iff original st0 l e').mp hst
        refine ⟨[], ls, st0, by simp [hl], applyDiffAux_nil original st0, ?_⟩
        rw [← hl, hst, he]
      · rintro ⟨pre, post, st, hl, hpre, hstep⟩
        cases pre with
        | nil =>
          simp only [List.nil_append] at hl
          injection hl with hl1 hl2
          rw [applyDiffAux_nil] at hpre
          injection hpre with hpre'
          subst hpre'
          rw [hl1] at hst
          rw [hst] at hstep
          have he : e' = e := by simpa using hstep
          simp [he]
        | cons p ps =>
          injection hl with hl1 hl2
          rw [applyDiffAux_cons] at hpre
          rw [← hl1, hst] at hpre
          exact absurd hpre (by simp)
    | ok st1 =>
      constructor
      · intro h
        obtain ⟨pre, post, st, h1, h2, h3⟩ := (ih st1 e).mp h
        refine ⟨l :: pre, post, st, by simp [h1], ?_, h3⟩
        rw [applyDiffAux_cons, hst]
        exact h2
      · rintro ⟨pre, post, st, h1, h2, h3⟩
        cases pre with
        | nil =>
          simp only [List.nil_append] at h1
          injection h1 with h11 h12
          rw [applyDiffAux_nil] at h2
          injection h2 with h2'
          subst h2'
          rw [h11] at hst
          rw [hst] at h3
          exact absurd h3 (by simp)
        | cons p ps =>
          injection h1 with h11 h12
          rw [applyDiffAux_cons] at h2
          rw [← h11, hst] at h2
          exact (ih st1 e).mpr ⟨ps, post, st, h12, h2, h3⟩

theorem runDiffLines_error_iff (lines : List (List Char)) (original : List Char)
    (isFinal : Bool) (e : String) :
    runDiffLines lines original isFinal = .error e ↔
      applyDiffAux original initState lines = .error e := by
  unfold runDiffLines
  cases applyDiffAux original initState lines <;> simp

/-- C2: `applyDiff` fails — with the single no-match error message — if and
only if at some separator line of the patch the accumulated search content is
non-empty and can be located neither by exact `indexOf` from the cursor nor by
`trimMatch`; in the `Except` model the error constructor carries only the
message, so no partially patched document text is returned to the caller on
failure. -/
theorem applyDiff_error_characterization (diff original : List Char) (isFinal : Bool) :
    (∀ e, applyDiff diff original isFinal = .error e → e = errMsg) ∧
    ((∃ e, applyDiff diff original isFinal = .error e) ↔
      ∃ pre post st, splitLines (normalizeNewlines diff) = pre ++ sepLine :: post ∧
        applyDiffAux (normalizeNewlines original) initState pre = .ok st ∧
        st.searchContent ≠ [] ∧
        jsIndexOf (normalizeNewlines original) st.searchContent st.lastIdx = none ∧
        trimMatch (normalizeNewlines original) st.searchContent st.lastIdx = none) := by
  constructor
  · intro e he
    unfold applyDiff at he
    rw [runDiffLines_error_iff, applyDiffAux_error_iff] at he
    obtain ⟨pre, post, st, -, -, hstep⟩ := he
    exact ((stepLine_error_iff _ _ _ _).mp hstep).2.1
  · constructor
    · rintro ⟨e, he⟩
      unfold applyDiff at he
      rw [runDiffLines_error_iff, applyDiffAux_error_iff] at he
      obtain ⟨pre, post, st, h1, h2, hstep⟩ := he
      obtain ⟨-, -, hne, hidx, htm⟩ := (stepLine_error_iff _ _ _ _).mp hstep
      exact ⟨pre, post, st, h1, h2, hne, hidx, htm⟩
    · rintro ⟨pre, post, st, h1, h2, hne, hidx, htm⟩
      refine ⟨errMsg, ?_⟩
      unfold applyDiff
      rw [runDiffLines_error_iff, applyDiffAux_error_iff]
      exact ⟨pre, post, st, h1, h2,
        (stepLine_error_iff _ _ _ _).mpr ⟨rfl, rfl, hne, hidx, htm⟩⟩

/-- C2 witness: the error characterization applied to a concrete patch whose
search block `"zzz"` occurs nowhere in document `"hello"`: the decomposition
at the separator line certifies that `applyDiff` raises the no-match error. -/
theorem applyDiff_error_characterization_witness :
    ∃ e, applyDiff (str "<<<<<<< SEARCH\nzzz\n=======\nb\n>>>>>>> REPLACE") (str "hello") true
      = .error e :=
  (applyDiff_error_characterization (str "<<<<<<< SEARCH\nzzz\n=======\nb\n>>>>>>> REPLACE")
      (str "hello") true).2.mpr
    ⟨[searchMarker, str "zzz"], [str "b", replMarker],
      ⟨[], 0, str "zzz\n", true, false, -1, -1⟩,
      by decide, by decide, by decide, by decide, by decide⟩

theorem applyDiffAux_cons_ok (original : List Char) (st : DState) (l : List Char)
    (ls : List (List Char)) (st' : DState) (h : stepLine original st l = .ok st') :
    applyDiffAux original st (l :: ls) = applyDiffAux original st' ls := by
  rw [applyDiffAux_cons, h]

theorem applyDiffAux_append_ok (original : List Char) (xs ys : List (List Char))
    (st st' : DState) (h : applyDiffAux original st xs = .ok st') :
    applyDiffAux original st (xs ++ ys) = applyDiffAux original st' ys := by
  rw [applyDiffAux_append, h]

theorem applyBlocks_nil (original : List Char) (idx : Int) :
    applyBlocks original idx [] = .ok ([], idx) := rfl

theorem applyBlocks_cons (original : List Char) (idx : Int) (b : Block) (rest : List Block) :
    applyBlocks original idx (b :: rest) =
      match resolveBlock original (joinAcc b.search) idx with
      | .error e => .error e
      | .ok (s, e) =>
        match applyBlocks original (e : Int) rest with
        | .error e2 => .error e2
        | .ok (tail, fin) =>
          .ok (jsSlice original idx (s : Int) ++ joinAcc b.replace ++ tail, fin) := rfl

theorem goodLine_ne {l : List Char} (h : goodLine l = true) :
    l ≠ searchMarker ∧ l ≠ sepLine ∧ l ≠ replMarker := by
  simp only [goodLine, Bool.and_eq_true, Bool.not_eq_true', beq_eq_false_iff_ne, ne_eq] at h
  exact ⟨h.1.1, h.1.2, h.2⟩

theorem step_content_search (original : List Char) (st : DState) (l : List Char)
    (hg : goodLine l = true) (hs : st.inSearch = true) :
    stepLine original st l = .ok { st with searchContent := st.searchContent ++ l ++ ['\n'] } := by
  obtain ⟨h1, h2, h3⟩ := goodLine_ne hg
  unfold stepLine
  rw [if_neg h1, if_neg h2, if_neg h3, if_pos hs]

theorem step_emit_replace (original : List Char) (st : DState) (l : List Char)
    (hg : goodLine l = true) (hs : st.inSearch = false) (hr : st.inReplace = true)
    (hm : st.matchStartIdx ≠ -1) :
    stepLine original st l = .ok { st with result := st.result ++ l ++ ['\n'] } := by
  obtain ⟨h1, h2, h3⟩ := goodLine_ne hg
  unfold stepLine
  rw [if_neg h1, if_neg h2, if_neg h3, if_neg (by simp [hs]), if_pos hr, if_pos hm]

theorem aux_search_acc (original : List Char) : ∀ (ls : List (List Char)) (st : DState),
    (∀ l ∈ ls, goodLine l = true) → st.inSearch = true →
    applyDiffAux original st ls
      = .ok { st with searchContent := st.searchContent ++ joinAcc ls } := by
  intro ls
  induction ls with
  | nil =>
    intro st _ _
    rw [applyDiffAux_nil]
    simp [joinAcc]
  | cons l ls ih =>
    intro st hg hs
    rw [applyDiffAux_cons_ok original st l ls _
      (step_content_search original st l (hg l (by simp)) hs)]
    rw [ih { st with searchContent := st.searchContent ++ l ++ ['\n'] }
      (fun x hx => hg x (by simp [hx])) hs]
    simp [joinAcc, List.append_assoc]

theorem aux_replace_emit (original : List Char) : ∀ (ls : List (List Char)) (st : DState),
    (∀ l ∈ ls, goodLine l = true) → st.inSearch = false → st.inReplace = true →
    st.matchStartIdx ≠ -1 →
    applyDiffAux original st ls = .ok { st with result := st.result ++ joinAcc ls } := by
  intro ls
  induction ls with
  | nil =>
    intro st _ _ _ _
    rw [applyDiffAux_nil]
    simp [joinAcc]
  | cons l ls ih =>
    intro st hg hs hr hm
    rw [applyDiffAux_cons_ok original st l ls _
      (step_emit_replace original st l (hg l (by simp)) hs hr hm)]
    rw [ih { st with result := st.result ++ l ++ ['\n'] }
      (fun x hx => hg x (by simp [hx])) hs hr hm]
    simp [joinAcc, List.append_assoc]

theorem aux_block (original : List Char) (b : Block) (hb : wfBlock b) (r : List Char) (idx : Int) :
    applyDiffAux original (cleanState r idx) (blockLines b) =
      match resolveBlock original (joinAcc b.search) idx with
      | .error e => .error e
      | .ok (s, e) =>
        .ok (cleanState (r ++ (jsSlice original idx (s : Int) ++ joinAcc b.replace)) (e : Int)) := by
  obtain ⟨hbs, hbr⟩ := hb
  have e1 : applyDiffAux original (cleanState r idx) (blockLines b)
      = applyDiffAux original ⟨r, idx, joinAcc b.search, true, false, -1, -1⟩
          (sepLine :: (b.replace ++ [replMarker])) := by
    unfold blockLines
    rw [applyDiffAux_cons_ok original (cleanState r idx) searchMarker _ _
      (step_searchM original (cleanState r idx))]
    rw [applyDiffAux_append_ok original b.search _ _ _
      (aux_search_acc original b.search _ hbs rfl)]
    rfl
  rw [e1]
  cases hres : resolveBlock original (joinAcc b.search) idx with
  | error e =>
    rw [applyDiffAux_cons, step_sep]
    dsimp only
    rw [hres]
  | ok p =>
    obtain ⟨s, e⟩ := p
    rw [applyDiffAux_cons, step_sep]
    dsimp only
    rw [hres]
    dsimp only
    rw [applyDiffAux_append_ok original b.replace [replMarker] _ _
      (aux_replace_emit original b.replace _ hbr rfl rfl
        (by show ((s : Int)) ≠ -1; omega))]
    rw [applyDiffAux_cons_ok original _ replMarker [] _ (step_repl original _)]
    rw [applyDiffAux_nil]
    simp [cleanState, List.append_assoc]

theorem aux_patch (original : List Char) : ∀ (bs : List Block), wfBlocks bs →
    ∀ (r : List Char) (idx : Int),
    applyDiffAux original (cleanState r idx) (patchLines bs) =
      match applyBlocks original idx bs with
      | .error e => .error e
      | .ok (tail, fin) => .ok (cleanState (r ++ tail) fin) := by
  intro bs
  induction bs with
  | nil =>
    intro _ r idx
    rw [show patchLines [] = [] from rfl, applyDiffAux_nil, applyBlocks_nil]
    simp
  | cons b rest ih =>
    intro hwf r idx
    have hpl : patchLines (b :: rest) = blockLines b ++ patchLines rest := by
      simp [patchLines]
    rw [hpl, applyDiffAux_append]
    rw [aux_block original b (hwf b (by simp)) r idx]
    cases hres : resolveBlock original (joinAcc b.search) idx with
    | error e =>
      rw [applyBlocks_cons, hres]
    | ok p =>
      obtain ⟨s, e⟩ := p
      rw [applyBlocks_cons, hres]
      dsimp only
      rw [ih (fun b' hb' => hwf b' (by simp [hb']))
        (r ++ (jsSlice original idx (s : Int) ++ joinAcc b.replace)) (e : Int)]
      cases applyBlocks original (e : Int) rest with
      | error e2 => rfl
      | ok q =>
        obtain ⟨tail, fin⟩ := q
        dsimp only
        simp [List.append_assoc]

/-- C7: frame property of a successful run.  For a patch made of well-formed
blocks (content lines that are not sentinel lines), the output of the line
loop is exactly the reference splice `applyBlocks`: for each block in order,
the unmodified document slice from the previous cursor up to the block's match
start, then the block's replacement lines each followed by a newline; with
`isFinal = true` the unconsumed document content past the final cursor is
appended verbatim, and with `isFinal = false` it is not. -/
theorem applyDiff_frame (original : List Char) (bs : List Block) (out : List Char) (fin : Int)
    (hwf : wfBlocks bs) (hok : applyBlocks original 0 bs = .ok (out, fin)) :
    runDiffLines (patchLines bs) original true =
      .ok (out ++ (if fin < (original.length : Int)
          then jsSlice original fin (original.length : Int) else [])) ∧
    runDiffLines (patchLines bs) original false = .ok out := by
  have h := aux_patch original bs hwf [] 0
  rw [hok] at h
  dsimp only at h
  rw [List.nil_append] at h
  constructor
  · unfold runDiffLines
    rw [show initState = cleanState [] 0 from rfl, h]
    dsimp only [cleanState]
    by_cases hfin : fin < (original.length : Int)
    · rw [if_pos ⟨rfl, hfin⟩, if_pos hfin]
    · rw [if_neg (by simp [hfin]), if_neg hfin]
  · unfold runDiffLines
    rw [show initState = cleanState [] 0 from rfl, h]
    dsimp only [cleanState]
    rw [if_neg (by simp), List.append_nil]

/-- C7 witness: a one-block patch replacing line `"a"` by `"b"` in document
`"a\nz"`: with `isFinal = true` the trailing `"z"` is appended, with
`isFinal = false` it is not. -/
theorem applyDiff_frame_witness :
    (wfBlocks [⟨[str "a"], [str "b"]⟩] ∧
      applyBlocks (str "a\nz") 0 [⟨[str "a"], [str "b"]⟩] = .ok (str "b\n", 2)) ∧
    (runDiffLines (patchLines [⟨[str "a"], [str "b"]⟩]) (str "a\nz") true =
      .ok (str "b\n" ++ (if (2 : Int) < ((str "a\nz").length : Int)
          then jsSlice (str "a\nz") 2 ((str "a\nz").length : Int) else [])) ∧
    runDiffLines (patchLines [⟨[str "a"], [str "b"]⟩]) (str "a\nz") false = .ok (str "b\n")) :=
  ⟨⟨by decide, by decide⟩,
    applyDiff_frame (str "a\nz") [⟨[str "a"], [str "b"]⟩] (str "b\n") 2
      (by decide) (by decide)⟩
